import Mathlib

/-!
# Verification of the xfuse/hssl training utilities

Shallow embedding of the checkpoint store/restore pair, the dictionary
zipper, the design-matrix encoder, the interrupt-handler decorator, the
device mover, and the slide patch extractor, together with theorems
settling the frozen claims about them.

Source files embedded:
* `src/hssl/__main__.py` (`store_state`, `restore_state`, `zip_dicts`)
* `src/hssl/utility/utility.py` (`zip_dicts`, `design_matrix_from`,
  `with_interrupt_handler`, `to_device`)
* `src/hssl/data/slide/slide.py` (`Slide.__getitem__`)
-/

namespace Hssl

/-- Python-level errors that the embedded code can raise. -/
inductive PyErr where
  | keyError (key : String)
  | valueError (msg : String)
  | indexError (msg : String)
  | stopIteration
deriving DecidableEq, Repr

/-! ## Checkpoint store/restore (`src/hssl/__main__.py` lines 171-187)

A checkpoint record is the Python dict written by `t.save` /
read by `t.load`: a list of string-keyed entries.  Model states and
optimizer states are abstract types `M` and `O`; `load_state_dict`
replaces the target's state with the stored one. -/

/-- One value of the checkpoint dict: a model state-dict, the list of
optimizer state-dicts, or the iteration counter. -/
inductive StateEntry (M O : Type) where
  | model (m : M)
  | optimizers (os : List O)
  | iteration (n : Nat)
deriving DecidableEq, Repr

/-- `store_state(model, optimizers, iteration, file)`: the record written
to `file` is `dict(model=..., optimizers=[...], iteration=...)`. -/
def store_state {M O : Type} (m : M) (os : List O) (iteration : Nat) :
    List (String × StateEntry M O) :=
  [("model", StateEntry.model m),
   ("optimizers", StateEntry.optimizers os),
   ("iteration", StateEntry.iteration iteration)]

/-- Python dict lookup `state[k]`: `KeyError` when the key is absent. -/
def dictGet {M O : Type} (state : List (String × StateEntry M O)) (k : String) :
    Except PyErr (StateEntry M O) :=
  match state.find? (fun kv => kv.1 = k) with
  | some kv => Except.ok kv.2
  | none => Except.error (PyErr.keyError k)

/-- The effect of `for optimizer, optimizer_state in zip(optimizers, states):
optimizer.load_state_dict(optimizer_state)`: each zipped optimizer's state
becomes the stored state, the rest keep theirs (`zip` truncates to the
shorter list, no length check). -/
def applyStates {O : Type} : List O → List O → List O
  | [], _ => []
  | os, [] => os
  | _ :: os, s :: ss => s :: applyStates os ss

/-- `restore_state(model, optimizers, file)`: loads the record, reads key
`'vae'` into the model, zips the stored optimizer states onto the live
optimizers, and returns `state['iteration']`.  The result carries the
post-call model state, optimizer states and the returned iteration. -/
def restore_state {M O : Type} (model : M) (optimizers : List O)
    (state : List (String × StateEntry M O)) :
    Except PyErr (M × List O × Nat) :=
  match dictGet state "vae" with
  | Except.error e => Except.error e
  | Except.ok (StateEntry.model m) =>
    match dictGet state "optimizers" with
    | Except.error e => Except.error e
    | Except.ok (StateEntry.optimizers ss) =>
      match dictGet state "iteration" with
      | Except.error e => Except.error e
      | Except.ok (StateEntry.iteration n) =>
          Except.ok (m, applyStates optimizers ss, n)
      | Except.ok _ => Except.error (PyErr.valueError "invalid iteration entry")
    | Except.ok _ => Except.error (PyErr.valueError "invalid optimizers entry")
  | Except.ok _ => Except.error (PyErr.valueError "invalid model entry")

/-- A hand-built record carrying the key `'vae'` (the key `restore_state`
actually reads), used to exercise the restore path in isolation. -/
def mkVaeRecord {M O : Type} (m : M) (ss : List O) (n : Nat) :
    List (String × StateEntry M O) :=
  [("vae", StateEntry.model m),
   ("optimizers", StateEntry.optimizers ss),
   ("iteration", StateEntry.iteration n)]

end Hssl

namespace Hssl

/-- Claim C1: restoring the record written by `store_state` is claimed to
return the saved iteration and reinstall the saved state.  In the code the
round-trip instead fails: `store_state` writes the model under key
`'model'` while `restore_state` reads key `'vae'`, so the very first
lookup raises `KeyError('vae')`. -/
theorem restore_after_store_keyerror :
    restore_state (M := Nat) (O := Nat) 0 [0] (store_state 7 [42] 9) =
      Except.error (PyErr.keyError "vae") := rfl

/-- Claim C2 counterexample: the spec scenario (record saved with 1
optimizer state, restore called with 2 optimizers) does not raise any
mismatch error: `zip` silently truncates, the first optimizer's state is
overwritten with the stored state `99`, the second keeps its state `20`,
and the stored iteration 50000 is returned. -/
theorem restore_state_mismatch_counterexample :
    restore_state (M := Nat) (O := Nat) 0 [10, 20] (mkVaeRecord 7 [99] 50000) =
      Except.ok (7, [99, 20], 50000) := rfl

/-- Claim C2 (amended): when the stored optimizer-state count differs from
the live optimizer count, `restore_state` succeeds anyway: stored states
are applied pairwise until the shorter list runs out, the remaining
optimizers are left unchanged, and the stored iteration is returned. -/
theorem restore_state_truncates {M O : Type} (m : M) (os : List O)
    (m' : M) (ss : List O) (n : Nat) (h : os.length ≠ ss.length) :
    restore_state m os (mkVaeRecord m' ss n) =
      Except.ok (m', applyStates os ss, n) := by
  simp [restore_state, mkVaeRecord, dictGet]

/-- Claim C2 witness: `restore_state_truncates` at a concrete mismatched
input (2 optimizers, 1 stored state). -/
theorem restore_state_truncates_witness :
    restore_state (M := Nat) (O := Nat) 0 [1, 2] (mkVaeRecord 5 [9] 3) =
      Except.ok (5, applyStates [1, 2] [9], 3) :=
  restore_state_truncates 0 [1, 2] 5 [9] 3 (by decide)

/-! ## `with_interrupt_handler` (`src/hssl/utility/utility.py` lines 251-260)

The decorator body is

    previous_handler = signal.getsignal(signal.SIGINT)
    signal.signal(signal.SIGINT, handler)
    func(*args, **kwargs)
    signal.signal(signal.SIGINT, previous_handler)

with no `try/finally`.  The SIGINT handler slot is modelled as explicit
state of type `H`; the wrapped call is an `Except` value (the wrapped
function is modelled as not itself touching the handler slot).  The
wrapper discards `func`'s return value (Python returns `None`). -/

/-- Runs `with_interrupt_handler(handler)(func)` starting from installed
SIGINT handler `sigint0`; returns the wrapper's outcome together with the
handler installed after the call. -/
def with_interrupt_handler_run {H E A : Type} (handler : H) (func : Except E A)
    (sigint0 : H) : Except E Unit × H :=
  let previous_handler := sigint0
  match func with
  | Except.ok _ => (Except.ok (), previous_handler)
  | Except.error e => (Except.error e, handler)

/-- Claim C4 counterexample: with previous handler `0` and custom handler
`1`, a raising wrapped function leaves the custom handler `1` installed;
the previous handler `0` is not restored on the error path. -/
theorem interrupt_handler_not_restored_counterexample :
    (with_interrupt_handler_run (H := Nat) 1
        (Except.error "boom" : Except String Unit) 0).2 = 1 ∧
    (with_interrupt_handler_run (H := Nat) 1
        (Except.error "boom" : Except String Unit) 0).2 ≠ 0 := by
  constructor
  · rfl
  · decide

/-- Claim C4 (amended): the previous SIGINT handler is restored only when
the wrapped function returns normally; when it raises, the exception
propagates past the restore line and the custom handler stays installed. -/
theorem interrupt_handler_restore_paths {H E A : Type} (handler : H)
    (func : Except E A) (sigint0 : H) :
    (with_interrupt_handler_run handler func sigint0).2 =
      match func with
      | Except.ok _ => sigint0
      | Except.error _ => handler := by
  cases func <;> rfl

/-! ## `to_device` (`src/hssl/utility/utility.py` lines 299-307)

Python values passed through `to_device` are modelled by `PyValue`; a
tensor carries its device name.  The `device=None` default (resolved via
`get_default_device()`) is irrelevant to the claims, so the device is an
explicit argument. -/

/-- A Python value as seen by `to_device`/`find_device`. -/
inductive PyValue where
  | tensor (device : String) (payload : Nat)
  | list (xs : List PyValue)
  | dict (entries : List (String × PyValue))
  | tuple (xs : List PyValue)
  | num (n : Int)
  | str (s : String)
  | none

mutual

/-- `to_device(x, device)`: tensors are moved, lists and dicts are mapped
recursively; any other value falls through all `isinstance` checks and the
function implicitly returns `None`. -/
def to_device : PyValue → String → PyValue
  | PyValue.tensor _ payload, device => PyValue.tensor device payload
  | PyValue.list xs, device => PyValue.list (to_device_list xs device)
  | PyValue.dict entries, device => PyValue.dict (to_device_entries entries device)
  | _, _ => PyValue.none

/-- The list comprehension `[to_device(y, device) for y in x]`. -/
def to_device_list : List PyValue → String → List PyValue
  | [], _ => []
  | x :: xs, device => to_device x device :: to_device_list xs device

/-- The dict comprehension `{k: to_device(v, device) for k, v in x.items()}`. -/
def to_device_entries : List (String × PyValue) → String → List (String × PyValue)
  | [], _ => []
  | (k, v) :: es, device => (k, to_device v device) :: to_device_entries es device

end

/-- Claim C10: a tuple, a number, a string, and `None` are all mapped to
`None` by `to_device`, and inside a list or dict such elements are
replaced by `None` (their content is silently dropped). -/
theorem to_device_drops_unhandled (dev : String) (xs : List PyValue)
    (n : Int) (s : String) :
    to_device (PyValue.tuple xs) dev = PyValue.none ∧
    to_device (PyValue.num n) dev = PyValue.none ∧
    to_device (PyValue.str s) dev = PyValue.none ∧
    to_device PyValue.none dev = PyValue.none ∧
    to_device (PyValue.list [PyValue.num n]) dev = PyValue.list [PyValue.none] ∧
    to_device (PyValue.dict [("k", PyValue.str s)]) dev =
      PyValue.dict [("k", PyValue.none)] := by
  refine ⟨?_, ?_, ?_, ?_, ?_, ?_⟩ <;>
    simp [to_device, to_device_list, to_device_entries]

/-! ## `zip_dicts` (`src/hssl/utility/utility.py` lines 52-61,
`src/hssl/__main__.py` lines 27-36; identical code)

    d0 = next(ds)
    d = {k: [] for k in d0.keys()}
    for d_ in it.chain([d0], ds):
        for k, v in d_.items():
            try:
                d[k].append(v)
            except AttributeError:
                raise ValueError('dict keys are inconsistent')
    return d

A Python dict is an insertion-ordered list of key/value pairs with
distinct keys.  `d[k]` on a missing key raises `KeyError`, which the
`except AttributeError` clause does not catch, so the
`ValueError('dict keys are inconsistent')` line is unreachable;
it is kept in the error type for fidelity. -/

/-- `d[k].append(v)` when `k` is present: append `v` to key `k`'s list. -/
def appendAt {V : Type} (acc : List (String × List V)) (k : String) (v : V) :
    List (String × List V) :=
  acc.map (fun kv => if kv.1 = k then (kv.1, kv.2 ++ [v]) else kv)

/-- `k in d`: the dict has an entry for key `k`. -/
def hasKey {α : Type} (acc : List (String × α)) (k : String) : Bool :=
  acc.any (fun kv => kv.1 = k)

/-- The inner loop `for k, v in d_.items(): d[k].append(v)`; a key absent
from the accumulator raises `KeyError` (not the dead `ValueError`). -/
def zipInsert {V : Type} (acc : List (String × List V)) :
    List (String × V) → Except PyErr (List (String × List V))
  | [] => Except.ok acc
  | (k, v) :: rest =>
      if hasKey acc k then zipInsert (appendAt acc k v) rest
      else Except.error (PyErr.keyError k)

/-- The outer loop `for d_ in it.chain([d0], ds)`. -/
def zipFold {V : Type} (acc : List (String × List V)) :
    List (List (String × V)) → Except PyErr (List (String × List V))
  | [] => Except.ok acc
  | d :: ds =>
      match zipInsert acc d with
      | Except.ok acc' => zipFold acc' ds
      | Except.error e => Except.error e

/-- `zip_dicts(ds)`: seeds an empty list per key of the first dict, then
folds every dict (the first one included) through the inner loop.
`next(ds)` on an empty iterator raises `StopIteration`. -/
def zip_dicts {V : Type} : List (List (String × V)) →
    Except PyErr (List (String × List V))
  | [] => Except.error PyErr.stopIteration
  | d0 :: ds => zipFold (d0.map (fun kv => (kv.1, ([] : List V)))) (d0 :: ds)

/-- Claim C5 counterexample: two non-empty inputs with inconsistent key
sets on which `zip_dicts` does not raise
`ValueError('dict keys are inconsistent')`: when a later dict is missing
a key it silently returns uneven lists, and when a later dict has an
extra key it raises `KeyError` for that key instead. -/
theorem zip_dicts_inconsistent_counterexample :
    zip_dicts [[("a", 1), ("b", 2)], [("a", 3)]] =
      Except.ok [("a", [1, 3]), ("b", [2])] ∧
    zip_dicts [[("a", 1)], [("a", 2), ("b", 3)]] =
      Except.error (PyErr.keyError "b") := by
  constructor <;> rfl

/-- Mapping a key-preserving function over a dict leaves `hasKey`
unchanged. -/
theorem hasKey_map {α β : Type} (l : List (String × α))
    (f : String × α → String × β) (hf : ∀ kv, (f kv).1 = kv.1) (k : String) :
    hasKey (l.map f) k = hasKey l k := by
  induction l with
  | nil => rfl
  | cons hd tl ih =>
      simp only [hasKey, List.map_cons, List.any_cons] at ih ⊢
      rw [hf hd, ih]

/-- `hasKey` is membership in the key list. -/
theorem hasKey_iff_mem {α : Type} (l : List (String × α)) (k : String) :
    hasKey l k = true ↔ k ∈ l.map Prod.fst := by
  simp [hasKey, List.any_eq_true, List.mem_map]

/-- `appendAt` only rewrites values, never keys. -/
theorem hasKey_appendAt {V : Type} (acc : List (String × List V))
    (k k' : String) (v : V) :
    hasKey (appendAt acc k v) k' = hasKey acc k' := by
  apply hasKey_map
  intro kv
  by_cases h : kv.1 = k <;> simp [h]

/-- Processing one dict whose keys all occur in the accumulator and are
pairwise distinct appends, to every accumulator key, that dict's value for
the key (when present). -/
theorem zipInsert_complete {V : Type} (d : List (String × V)) :
    ∀ acc : List (String × List V), (d.map Prod.fst).Nodup →
    (∀ kv ∈ d, hasKey acc kv.1 = true) →
    zipInsert acc d = Except.ok (acc.map (fun kv =>
      (kv.1, kv.2 ++ ((d.find? (fun kv2 => kv2.1 = kv.1)).map Prod.snd).toList))) := by
  induction d with
  | nil =>
      intro acc _ _
      simp [zipInsert]
  | cons hd rest ih =>
      intro acc hnd hmem
      obtain ⟨k, v⟩ := hd
      have hk : hasKey acc k = true := hmem (k, v) (by simp)
      have hcons : (k :: rest.map Prod.fst).Nodup := by simpa using hnd
      have hnd' : (rest.map Prod.fst).Nodup := hcons.of_cons
      have hknotin : k ∉ rest.map Prod.fst := (List.nodup_cons.mp hcons).1
      have hmem' : ∀ kv ∈ rest, hasKey (appendAt acc k v) kv.1 = true := by
        intro kv hkv
        rw [hasKey_appendAt]
        exact hmem kv (List.mem_cons_of_mem _ hkv)
      have hstep : zipInsert acc ((k, v) :: rest) =
          zipInsert (appendAt acc k v) rest := by
        simp [zipInsert, hk]
      rw [hstep, ih (appendAt acc k v) hnd' hmem']
      unfold appendAt
      rw [List.map_map]
      congr 1
      apply List.map_congr_left
      intro kv _
      by_cases hkk : kv.1 = k
      · have e1 : (if kv.1 = k then (kv.1, kv.2 ++ [v]) else kv) =
            (kv.1, kv.2 ++ [v]) := by simp [hkk]
        have e2 : ((k, v) :: rest).find? (fun kv2 => kv2.1 = kv.1) = some (k, v) :=
          List.find?_cons_of_pos _ (by simp [hkk.symm])
        have e3 : rest.find? (fun kv2 => kv2.1 = kv.1) = none := by
          rw [List.find?_eq_none]
          intro x hx
          simp only [decide_eq_true_eq]
          intro hx1
          have hxk : x.1 = k := hx1.trans hkk
          exact hknotin (hxk ▸ List.mem_map_of_mem Prod.fst hx)
        simp [Function.comp, e1, e2, e3]
      · have e1 : (if kv.1 = k then (kv.1, kv.2 ++ [v]) else kv) = kv := by
          simp [hkk]
        have e2 : ((k, v) :: rest).find? (fun kv2 => kv2.1 = kv.1) =
            rest.find? (fun kv2 => kv2.1 = kv.1) := by
          apply List.find?_cons_of_neg
          simp only [decide_eq_true_eq]
          exact fun h => hkk h.symm
        simp [Function.comp, e1, e2]

/-- Folding a list of dicts, each with distinct keys drawn from the
accumulator's key set, appends to each key its stream of values. -/
theorem zipFold_complete {V : Type} (dicts : List (List (String × V))) :
    ∀ acc : List (String × List V),
    (∀ d ∈ dicts, (d.map Prod.fst).Nodup ∧ ∀ kv ∈ d, hasKey acc kv.1 = true) →
    zipFold acc dicts = Except.ok (acc.map (fun kv =>
      (kv.1, kv.2 ++ dicts.filterMap
        (fun d => (d.find? (fun kv2 => kv2.1 = kv.1)).map Prod.snd)))) := by
  induction dicts with
  | nil =>
      intro acc _
      simp [zipFold]
  | cons d rest ih =>
      intro acc hh
      have hd := hh d (by simp)
      have h1 : zipInsert acc d = Except.ok (acc.map (fun kv =>
          (kv.1, kv.2 ++ ((d.find? (fun kv2 => kv2.1 = kv.1)).map Prod.snd).toList))) :=
        zipInsert_complete d acc hd.1 hd.2
      have hkeys : ∀ k, hasKey (acc.map (fun kv =>
          (kv.1, kv.2 ++ ((d.find? (fun kv2 => kv2.1 = kv.1)).map Prod.snd).toList))) k
            = hasKey acc k := by
        intro k
        exact hasKey_map acc (fun kv =>
          (kv.1, kv.2 ++ ((d.find? (fun kv2 => kv2.1 = kv.1)).map Prod.snd).toList))
          (fun kv => rfl) k
      have hrest : ∀ d' ∈ rest, (d'.map Prod.fst).Nodup ∧
          ∀ kv ∈ d', hasKey (acc.map (fun kv =>
            (kv.1, kv.2 ++ ((d.find? (fun kv2 => kv2.1 = kv.1)).map Prod.snd).toList)))
              kv.1 = true := by
        intro d' hd'
        refine ⟨(hh d' (by simp [hd'])).1, ?_⟩
        intro kv hkv
        rw [hkeys]
        exact (hh d' (by simp [hd'])).2 kv hkv
      have h2 := ih _ hrest
      simp only [zipFold, h1, h2]
      rw [List.map_map]
      congr 1
      apply List.map_congr_left
      intro kv _
      simp only [Function.comp, List.filterMap_cons]
      cases hf : d.find? (fun kv2 => kv2.1 = kv.1) <;>
        simp [List.append_assoc]

/-- Claim C5 (amended): on a non-empty sequence of dicts with identical
key sets (each later dict's key list is a permutation of the first's,
keys distinct within each dict), `zip_dicts` returns, for each key of the
first dict in order, the list of that key's values across the dicts in
input order.  (For non-identical key sets the claimed
`ValueError('dict keys are inconsistent')` is never raised: see the
counterexample.) -/
theorem zip_dicts_consistent {V : Type} (d0 : List (String × V))
    (ds : List (List (String × V)))
    (hnd : (d0.map Prod.fst).Nodup)
    (hds : ∀ d ∈ ds, (d.map Prod.fst).Perm (d0.map Prod.fst)) :
    zip_dicts (d0 :: ds) = Except.ok (d0.map (fun kv =>
      (kv.1, (d0 :: ds).filterMap
        (fun d => (d.find? (fun kv2 => kv2.1 = kv.1)).map Prod.snd)))) := by
  have hcond : ∀ d ∈ (d0 :: ds), (d.map Prod.fst).Nodup ∧
      ∀ kv ∈ d, hasKey (d0.map (fun kv => (kv.1, ([] : List V)))) kv.1 = true := by
    intro d hd
    have hmem : ∀ kv ∈ d,
        hasKey (d0.map (fun kv => (kv.1, ([] : List V)))) kv.1 = true := by
      intro kv hkv
      rw [hasKey_map d0 (fun kv => (kv.1, ([] : List V))) (fun kv => rfl) kv.1,
        hasKey_iff_mem]
      rcases List.mem_cons.mp hd with h | h
      · exact h ▸ List.mem_map_of_mem Prod.fst hkv
      · exact (hds d h).mem_iff.mp (List.mem_map_of_mem Prod.fst hkv)
    rcases List.mem_cons.mp hd with h | h
    · exact ⟨h ▸ hnd, hmem⟩
    · exact ⟨((hds d h).nodup_iff).mpr hnd, hmem⟩
  have hmain := zipFold_complete (d0 :: ds)
    (d0.map (fun kv => (kv.1, ([] : List V)))) hcond
  simp only [zip_dicts]
  rw [hmain, List.map_map]
  congr 1

/-- Claim C5 witness: `zip_dicts_consistent` applied to two concrete dicts
sharing the key set `{a, b}` in different orders. -/
theorem zip_dicts_consistent_witness :
    zip_dicts [[("a", 1), ("b", 2)], [("b", 20), ("a", 10)]] =
      Except.ok [("a", [1, 10]), ("b", [2, 20])] := by
  have h := zip_dicts_consistent [("a", 1), ("b", 2)] [[("b", 20), ("a", 10)]]
    (by decide) (by decide)
  simpa using h

/-! ## `design_matrix_from` (`src/hssl/utility/utility.py` lines 178-222)

The design table is a pandas DataFrame: `numSamples` rows and a list of
named covariate columns, each holding one (string-coerced) value per
sample.  `sorted` on Python strings compares code points lexicographically
and is modelled by an executable comparison on the character lists. -/

/-- Lexicographic comparison of character lists by code point. -/
def charListLe : List Char → List Char → Bool
  | [], _ => true
  | _ :: _, [] => false
  | c :: cs, d :: ds =>
      if c.val < d.val then true
      else if d.val < c.val then false
      else charListLe cs ds

/-- Python `a <= b` on strings. -/
def strLe (a b : String) : Bool := charListLe a.data b.data

/-- Python `sorted(set(xs))`: the distinct values in ascending order. -/
def sortedSetStr (xs : List String) : List String :=
  List.insertionSort (fun a b => strLe a b = true) xs.dedup

/-- A design table: sample count and named covariate columns (one value
per sample, already coerced to strings by `.astype(str)`). -/
structure Design where
  numSamples : Nat
  cols : List (String × List String)
deriving DecidableEq, Repr

/-- The frame returned by `design_matrix_from`: rows labelled by
(covariate, category) pairs, one column per sample. -/
structure DesignMatrix where
  rowIndex : List (String × String)
  numCols : Nat
  entries : List (List Nat)
deriving DecidableEq, Repr

/-- The pandas category code of `v` in the category list, as an `Option`
(`none` is the `-1` sentinel of values outside the categories). -/
def catCode : List String → String → Option Nat
  | [], _ => none
  | c :: cs, v => if c = v then some 0 else (catCode cs v).map (· + 1)

/-- The column of `np.eye(k)[:, codes]` selected by the code of `v`:
`codes` of `-1` wraps (negative indexing) to the last column `k - 1`. -/
def codeOf (cats : List String) (v : String) : Nat :=
  (catCode cats v).getD (cats.length - 1)

/-- `_encode`'s frame `np.eye(len(cats), dtype=int)[:, codes]`: row `i`,
sample-column `j` is 1 iff sample `j`'s code selects row `i`. -/
def encodeRows (cats : List String) (vals : List String) : List (List Nat) :=
  (List.range cats.length).map (fun i =>
    vals.map (fun v => if codeOf cats v = i then 1 else 0))

/-- `design[[x for x in sorted(design.columns)]]`. -/
def colsSorted (d : Design) : List (String × List String) :=
  List.insertionSort (fun a b => strLe a.1 b.1 = true) d.cols

/-- The categories installed on column `n` after the `set_categories`
loop: the sorted allowed set of the LAST covariate entry named `n` (the
loop mutates the shared column once per entry). -/
def catFor (cs : List (String × List String)) (n : String) : List String :=
  match cs.reverse.find? (fun c => c.1 = n) with
  | some c => sortedSetStr c.2
  | none => []

/-- `_encode(covariate)` as a fallible step: `np.eye(len(cats))[:, codes]`
raises `IndexError` when the category list is empty and some sample's
`-1` code must select the last of zero columns; otherwise the frame is
`encodeRows`. -/
def encodeBlock (cats vals : List String) :
    Except PyErr (List (List Nat)) :=
  if cats.length = 0 ∧ vals ≠ [] then
    Except.error (PyErr.indexError "index -1 is out of bounds for axis 1 with size 0")
  else Except.ok (encodeRows cats vals)

/-- The comprehension `[(k, _encode(v)) for k, v in design.iteritems()]`:
columns are encoded left to right, the first `IndexError` propagates;
on success the per-covariate rows are concatenated. -/
def encodeAll : List (String × List String × List String) →
    Except PyErr (List (List Nat))
  | [] => Except.ok []
  | b :: bs =>
      match encodeBlock b.2.1 b.2.2 with
      | Except.error e => Except.error e
      | Except.ok rows =>
          match encodeAll bs with
          | Except.error e => Except.error e
          | Except.ok rest => Except.ok (rows ++ rest)

/-- `ks, vs = zip(*[(k, _encode(v)) for k, v in design.iteritems()])`
followed by `pd.concat(vs, keys=ks)`: the comprehension runs (and may
raise) first; with zero frames the unpacking raises `ValueError`.  Each
block is (covariate name, categories, sample values). -/
def concatBlocks (numSamples : Nat)
    (blocks : List (String × List String × List String)) :
    Except PyErr DesignMatrix :=
  match encodeAll blocks with
  | Except.error e => Except.error e
  | Except.ok entries =>
      if blocks.isEmpty then
        Except.error (PyErr.valueError "not enough values to unpack (expected 2, got 0)")
      else
        Except.ok
          { rowIndex := blocks.flatMap (fun b => b.2.1.map (fun cat => (b.1, cat)))
            numCols := numSamples
            entries := entries }

/-- `design_matrix_from(design, covariates)`: zero covariate columns give
an empty 0-row frame sized to the sample count; with an explicit
allowlist, missing covariates are collected into one `ValueError`,
otherwise every listed covariate is encoded over its sorted allowed
categories; without an allowlist every (name-sorted) column is encoded
over its sorted observed values. -/
def design_matrix_from (d : Design) :
    Option (List (String × List String)) → Except PyErr DesignMatrix
  | some cs =>
      if d.cols.length = 0 then
        Except.ok { rowIndex := [], numCols := d.numSamples, entries := [] }
      else if ((cs.filter (fun c =>
          !((colsSorted d).any (fun col => col.1 = c.1)))).map Prod.fst).isEmpty then
        concatBlocks d.numSamples (cs.map (fun c =>
          (c.1, catFor cs c.1,
           (((colsSorted d).find? (fun col => col.1 = c.1)).map Prod.snd).getD [])))
      else
        Except.error (PyErr.valueError
          ("the following covariates are missing from the design: "
            ++ String.intercalate ", " ((cs.filter (fun c =>
                 !((colsSorted d).any (fun col => col.1 = c.1)))).map Prod.fst)))
  | none =>
      if d.cols.length = 0 then
        Except.ok { rowIndex := [], numCols := d.numSamples, entries := [] }
      else
        concatBlocks d.numSamples ((colsSorted d).map (fun col =>
          (col.1, sortedSetStr col.2, col.2)))

/-- Claim C9: a design with zero covariate columns yields a 0-row matrix
with one column per sample, not an error. -/
theorem design_matrix_no_covariate_columns (d : Design)
    (cov : Option (List (String × List String))) (h : d.cols = []) :
    design_matrix_from d cov =
      Except.ok { rowIndex := [], numCols := d.numSamples, entries := [] } := by
  cases cov <;> simp [design_matrix_from, h]

/-- Claim C9 witness: `design_matrix_no_covariate_columns` on a concrete
column-free table with 3 samples. -/
theorem design_matrix_no_covariate_columns_witness :
    design_matrix_from (Design.mk 3 []) none =
      Except.ok { rowIndex := [], numCols := 3, entries := [] } :=
  design_matrix_no_covariate_columns (Design.mk 3 []) none rfl

/-- In a list of pairs with pairwise-distinct keys, `find?` by an
element's key returns that element. -/
theorem find?_key_of_nodup {β : Type} (l : List (String × β)) (c : String × β)
    (hnd : (l.map Prod.fst).Nodup) (hc : c ∈ l) :
    l.find? (fun x => x.1 = c.1) = some c := by
  induction l with
  | nil => cases hc
  | cons hd tl ih =>
      have hcons : (hd.1 :: tl.map Prod.fst).Nodup := by simpa using hnd
      rcases List.mem_cons.mp hc with h | h
      · subst h
        exact List.find?_cons_of_pos _ (by simp)
      · have hdne : ¬ (hd.1 = c.1) := by
          intro he
          have hmem : c.1 ∈ tl.map Prod.fst := List.mem_map_of_mem Prod.fst h
          exact (List.nodup_cons.mp hcons).1 (he ▸ hmem)
        rw [List.find?_cons_of_neg _ (by simp [hdne]), ih hcons.of_cons h]

/-- With pairwise-distinct covariate names, the `set_categories` loop
leaves covariate `c` with exactly its own sorted allowed set. -/
theorem catFor_of_nodup (cs : List (String × List String))
    (c : String × List String) (hnd : (cs.map Prod.fst).Nodup) (hc : c ∈ cs) :
    catFor cs c.1 = sortedSetStr c.2 := by
  have hrev : cs.reverse.find? (fun x => x.1 = c.1) = some c := by
    apply find?_key_of_nodup
    · rw [List.map_reverse]
      exact List.nodup_reverse.mpr hnd
    · exact List.mem_reverse.mpr hc
  simp [catFor, hrev]

/-- Sorting the distinct values of a non-empty list yields a non-empty
list. -/
theorem sortedSetStr_ne_nil (xs : List String) (h : xs ≠ []) :
    sortedSetStr xs ≠ [] := by
  intro hnil
  have hperm : (sortedSetStr xs).Perm xs.dedup := List.perm_insertionSort _ _
  rw [hnil] at hperm
  exact h ((List.dedup_eq_nil xs).mp hperm.symm.eq_nil)

/-- When every block has a non-empty category list, the encode
comprehension succeeds with the concatenated one-hot rows. -/
theorem encodeAll_ok (blocks : List (String × List String × List String))
    (h : ∀ b ∈ blocks, b.2.1 ≠ []) :
    encodeAll blocks =
      Except.ok (blocks.flatMap (fun b => encodeRows b.2.1 b.2.2)) := by
  induction blocks with
  | nil => rfl
  | cons b bs ih =>
      have hb : ¬ (b.2.1 = [] ∧ ¬ b.2.2 = []) := by
        intro hc
        exact h b (List.mem_cons_self b bs) hc.1
      have hrest := ih (fun b' hb' => h b' (List.mem_cons_of_mem _ hb'))
      simp [encodeAll, encodeBlock, hb, hrest]

/-- Claim C8 counterexample: an allowlist entry with an EMPTY allowed
category set on a table with one sample row.  Every sample's category
code is the `-1` sentinel, and `np.eye(0, dtype=int)[:, [-1]]` has no
column to wrap to: the program raises `IndexError` instead of returning
an encoding, so the claim fails for this supplied allowlist. -/
theorem design_matrix_empty_set_counterexample :
    design_matrix_from (Design.mk 1 [("a", ["x"])]) (some [("a", [])]) =
      Except.error
        (PyErr.indexError "index -1 is out of bounds for axis 1 with size 0") := rfl

/-- Claim C8 (amended): with an explicit allowlist of pairwise-distinct
covariates, all present among the design's columns and each with a
NON-EMPTY allowed category set, `design_matrix_from` succeeds and its row
index is fully determined by the allowlist: for each listed covariate,
one row per allowed category, labelled by the sorted allowed categories —
independent of the order (or the values) in which categories appear in
the design's columns.  (An empty allowed set raises `IndexError` when a
sample must be encoded: see the counterexample.) -/
theorem design_matrix_allowlist_rows (d : Design)
    (cs : List (String × List String)) (hne : cs ≠ [])
    (hnd : (cs.map Prod.fst).Nodup)
    (hcats : ∀ c ∈ cs, c.2 ≠ [])
    (hpres : ∀ c ∈ cs, c.1 ∈ d.cols.map Prod.fst) :
    ∃ M, design_matrix_from d (some cs) = Except.ok M ∧
      M.rowIndex =
        cs.flatMap (fun c => (sortedSetStr c.2).map (fun cat => (c.1, cat))) ∧
      M.numCols = d.numSamples ∧
      M.entries.length = M.rowIndex.length := by
  obtain ⟨c0, hc0⟩ := List.exists_mem_of_ne_nil cs hne
  have hperm : (colsSorted d).Perm d.cols := List.perm_insertionSort _ d.cols
  have hcols_ne : ¬ (d.cols.length = 0) := by
    intro h0
    have hnil : d.cols = [] := List.length_eq_zero.mp h0
    have hm := hpres c0 hc0
    rw [hnil] at hm
    simp at hm
  have hany : ∀ c ∈ cs, (colsSorted d).any (fun col => col.1 = c.1) = true := by
    intro c hc
    rw [List.any_eq_true]
    have hmem : c.1 ∈ (colsSorted d).map Prod.fst := by
      rw [(hperm.map Prod.fst).mem_iff]
      exact hpres c hc
    rcases List.mem_map.mp hmem with ⟨col, hcol, hfst⟩
    exact ⟨col, hcol, by simp [hfst]⟩
  have hfilter : cs.filter (fun c =>
      !((colsSorted d).any (fun col => col.1 = c.1))) = [] := by
    rw [List.filter_eq_nil_iff]
    intro c hc
    simp [hany c hc]
  have hempty : ((cs.filter (fun c =>
      !((colsSorted d).any (fun col => col.1 = c.1)))).map Prod.fst).isEmpty = true := by
    rw [hfilter]
    rfl
  have hblocks_ne : ¬ ((cs.map (fun c =>
      (c.1, catFor cs c.1,
       (((colsSorted d).find? (fun col => col.1 = c.1)).map Prod.snd).getD []))).isEmpty
        = true) := by
    rw [List.isEmpty_iff, List.map_eq_nil_iff]
    exact hne
  have hres1 : design_matrix_from d (some cs) =
      concatBlocks d.numSamples (cs.map (fun c =>
        (c.1, catFor cs c.1,
         (((colsSorted d).find? (fun col => col.1 = c.1)).map Prod.snd).getD []))) := by
    simp only [design_matrix_from]
    rw [if_neg hcols_ne, if_pos hempty]
  have hallne : ∀ b ∈ (cs.map (fun c =>
      (c.1, catFor cs c.1,
       (((colsSorted d).find? (fun col => col.1 = c.1)).map Prod.snd).getD []))),
      b.2.1 ≠ [] := by
    intro b hb
    rcases List.mem_map.mp hb with ⟨c, hc, rfl⟩
    show catFor cs c.1 ≠ []
    rw [catFor_of_nodup cs c hnd hc]
    exact sortedSetStr_ne_nil c.2 (hcats c hc)
  have hres2 : design_matrix_from d (some cs) = Except.ok
      { rowIndex := (cs.map (fun c =>
          (c.1, catFor cs c.1,
           (((colsSorted d).find? (fun col => col.1 = c.1)).map Prod.snd).getD []))).flatMap
            (fun b => b.2.1.map (fun cat => (b.1, cat)))
        numCols := d.numSamples
        entries := (cs.map (fun c =>
          (c.1, catFor cs c.1,
           (((colsSorted d).find? (fun col => col.1 = c.1)).map Prod.snd).getD []))).flatMap
            (fun b => encodeRows b.2.1 b.2.2) } := by
    rw [hres1]
    simp only [concatBlocks, encodeAll_ok _ hallne]
    rw [if_neg hblocks_ne]
  refine ⟨_, hres2, ?_, rfl, ?_⟩
  · simp only [List.flatMap_map]
    apply List.flatMap_congr
    intro c hc
    rw [catFor_of_nodup cs c hnd hc]
  · simp only [List.flatMap_map, List.length_flatMap, List.map_map]
    congr 1
    apply List.map_congr_left
    intro c _
    simp [encodeRows, Function.comp]

/-- Claim C8 witness: `design_matrix_allowlist_rows` on a concrete table
whose categories appear out of order. -/
theorem design_matrix_allowlist_rows_witness :
    ∃ M, design_matrix_from (Design.mk 2 [("b", ["y", "x"]), ("a", ["q", "p"])])
        (some [("a", ["z", "q"]), ("b", ["x"])]) = Except.ok M ∧
      M.rowIndex = [("a", ["z", "q"]), ("b", ["x"])].flatMap
        (fun c => (sortedSetStr c.2).map (fun cat => (c.1, cat))) ∧
      M.numCols = 2 ∧
      M.entries.length = M.rowIndex.length :=
  design_matrix_allowlist_rows (Design.mk 2 [("b", ["y", "x"]), ("a", ["q", "p"])])
    [("a", ["z", "q"]), ("b", ["x"])] (by decide) (by decide) (by decide) (by decide)

/-- Claim C3 counterexample: one covariate `cov` with allowed categories
`{a, b}` and a single sample whose observed value `z` is outside the
allowed set.  The sample's column is `(0, 1)ᵀ` — the one-hot vector of the
last allowed category `b` — not the all-zero vector `(0, 0)ᵀ` the claim
requires. -/
theorem design_matrix_gap_counterexample :
    design_matrix_from (Design.mk 1 [("cov", ["z"])]) (some [("cov", ["a", "b"])]) =
      Except.ok { rowIndex := [("cov", "a"), ("cov", "b")], numCols := 1,
                  entries := [[0], [1]] } := rfl

/-- The category code of a value outside the category list is the `-1`
sentinel (`none`). -/
theorem catCode_eq_none (cats : List String) (v : String) (hmem : v ∉ cats) :
    catCode cats v = none := by
  induction cats with
  | nil => rfl
  | cons c rest ih =>
      have hne : ¬ (c = v) := fun h => hmem (h ▸ List.mem_cons_self c rest)
      have : v ∉ rest := fun h => hmem (List.mem_cons_of_mem c h)
      simp [catCode, hne, ih this]

/-- Claim C3 (amended): a sample value outside the allowed category list
is encoded as the one-hot vector of the LAST sorted category (row
`k - 1`), because the pandas code `-1` wraps around under numpy negative
indexing — not as an all-zero column. -/
theorem encode_out_of_allowlist (cats vals : List String) (j : Nat) (v : String)
    (hv : vals.get? j = some v) (hmem : v ∉ cats) :
    ∀ i, i < cats.length →
      ((encodeRows cats vals).get? i).bind (fun row => row.get? j) =
        some (if i = cats.length - 1 then 1 else 0) := by
  intro i hi
  have hcode : codeOf cats v = cats.length - 1 := by
    simp [codeOf, catCode_eq_none cats v hmem]
  have h1 : (encodeRows cats vals).get? i =
      some (vals.map (fun v => if codeOf cats v = i then 1 else 0)) := by
    rw [List.get?_eq_getElem?]
    simp only [encodeRows, List.getElem?_map, List.getElem?_range, hi, if_pos]
    rfl
  have h2 : vals[j]? = some v := by
    rw [← List.get?_eq_getElem?]
    exact hv
  rw [h1]
  show (vals.map (fun v => if codeOf cats v = i then 1 else 0)).get? j = _
  rw [List.get?_eq_getElem?, List.getElem?_map, h2]
  by_cases he : i = cats.length - 1
  · simp [hcode, he]
  · have hne : ¬ (cats.length - 1 = i) := fun h => he h.symm
    simp [hcode, he, hne]

/-- Claim C3 witness: `encode_out_of_allowlist` at the counterexample's
input — both rows of sample 0's column evaluated. -/
theorem encode_out_of_allowlist_witness :
    ((encodeRows ["a", "b"] ["z"]).get? 0).bind (fun row => row.get? 0) = some 0 ∧
    ((encodeRows ["a", "b"] ["z"]).get? 1).bind (fun row => row.get? 0) = some 1 := by
  have h := encode_out_of_allowlist ["a", "b"] ["z"] 0 "z" rfl (by decide)
  exact ⟨by simpa using h 0 (by decide), by simpa using h 1 (by decide)⟩

/-! ## `Slide.__getitem__` (`src/hssl/data/slide/slide.py` lines 46-65)

A slide holds the per-segment count matrix `data` (row `i` belongs to
label id `i + 1`), the dataset length `len(self)`, and the abstract
`_get_patch` (modelled as a function from the index to the cropped label
grid; the image channel plays no role in the claims).

`scipy.ndimage.binary_fill_holes(mask)` fills the `False` connected
components (4-connectivity) of `mask` that do not reach the array border:
a pixel is `False` in the output iff it is `False` in `mask` and connected
to the border through `False` pixels.  The flood is computed as a
monotone fixed-point iteration run `H*W + 1` times. -/

/-- A slide: count matrix, `__len__`, and the label crop produced by
`_get_patch(idx)` for every index. -/
structure Slide where
  data : List (List Nat)
  len : Nat
  patches : Nat → List (List Nat)

/-- `self._zero_data`: id 0 together with `i + 1` for every all-zero count
row `i` (`np.where(data.sum(1) == 0)[0] + 1`). -/
def zeroData (s : Slide) : List Nat :=
  0 :: ((List.range s.data.length).filter
    (fun i => ((s.data.get? i).getD []).sum = 0)).map (· + 1)

/-- Bounds-checked boolean grid read (out of range reads `false`). -/
def bget (g : List (List Bool)) (i j : Nat) : Bool :=
  (((g.get? i).getD []).get? j).getD false

/-- Bounds-checked label grid read (out of range reads 0). -/
def nget (g : List (List Nat)) (i j : Nat) : Nat :=
  (((g.get? i).getD []).get? j).getD 0

/-- `np.isin(label, self._zero_data)`. -/
def maskGrid (s : Slide) (g : List (List Nat)) : List (List Bool) :=
  g.map (fun row => row.map (fun v => decide (v ∈ zeroData s)))

/-- One expansion step of the border flood through `False` mask pixels
(4-connectivity; border pixels seed the flood). -/
def reachStep (mask reach : List (List Bool)) : List (List Bool) :=
  (List.range mask.length).map (fun i =>
    (List.range ((mask.get? 0).getD []).length).map (fun j =>
      !(bget mask i j) &&
        (decide (i = 0) || decide (i = mask.length - 1) || decide (j = 0) ||
         decide (j = ((mask.get? 0).getD []).length - 1) ||
         bget reach i j || bget reach (i - 1) j || bget reach (i + 1) j ||
         bget reach i (j - 1) || bget reach i (j + 1))))

/-- `n` flood steps from the empty set. -/
def iterateReach (mask : List (List Bool)) : Nat → List (List Bool)
  | 0 => mask.map (List.map (fun _ => false))
  | n + 1 => reachStep mask (iterateReach mask n)

/-- The border flood run to its fixed point (`H*W + 1` monotone steps). -/
def floodReach (mask : List (List Bool)) : List (List Bool) :=
  iterateReach mask (mask.length * ((mask.get? 0).getD []).length + 1)

/-- `binary_fill_holes(mask)`: a pixel is filled iff it is masked or not
reached by the border flood. -/
def fillHoles (mask : List (List Bool)) : List (List Bool) :=
  (List.range mask.length).map (fun i =>
    (List.range ((mask.get? 0).getD []).length).map (fun j =>
      bget mask i j || !(bget (floodReach mask) i j)))

/-- `label[np.invert(binary_fill_holes(np.isin(label, self._zero_data)))]
= 0`: pixels outside the filled region are zeroed, the rest keep their
id. -/
def filteredLabel (s : Slide) (g : List (List Nat)) : List (List Nat) :=
  (List.range g.length).map (fun i =>
    (List.range ((g.get? 0).getD []).length).map (fun j =>
      if bget (fillHoles (maskGrid s g)) i j then nget g i j else 0))

/-- `sorted(np.unique(xs))` for integer grids: distinct values in
ascending order. -/
def sortedUniqueNat (xs : List Nat) : List Nat :=
  List.insertionSort (fun a b => a ≤ b) xs.dedup

/-- `labels = [*sorted(np.unique(label))]` on the filtered crop. -/
def survivingIds (s : Slide) (g : List (List Nat)) : List Nat :=
  sortedUniqueNat (filteredLabel s g).flatten

/-- `np.searchsorted(ids, v)` on the sorted duplicate-free id list: the
number of ids strictly below `v` (the left insertion point, which for
`v ∈ ids` is its rank). -/
def remapPixel (ids : List Nat) (v : Nat) : Nat :=
  ids.countP (fun u => decide (u < v))

/-- `label = np.searchsorted(labels, label)` applied to the filtered
crop. -/
def remappedLabel (s : Slide) (g : List (List Nat)) : List (List Nat) :=
  (filteredLabel s g).map (List.map (remapPixel (survivingIds s g)))

/-- `data = self._data[[x - 1 for x in labels if x > 0]]` (label ids are
assumed in range of the count matrix; the `IndexError` path of fancy
indexing is not modelled). -/
def rowsFor (s : Slide) (ids : List Nat) : List (List Nat) :=
  ids.map (fun x => (s.data.get? (x - 1)).getD [])

/-- The dict returned for one patch: remapped label grid and gathered
count rows (image tensor and the constant `type` tag omitted). -/
structure Patch where
  label : List (List Nat)
  data : List (List Nat)
deriving DecidableEq, Repr

/-- The body of `__getitem__` up to the retry decision: `none` exactly
when `data.shape[0] == 0`, i.e. when no non-zero id survives the crop. -/
def processPatch (s : Slide) (g : List (List Nat)) : Option Patch :=
  if ((survivingIds s g).filter (fun x => decide (0 < x))).isEmpty then none
  else some
    { label := remappedLabel s g
      data := rowsFor s ((survivingIds s g).filter (fun x => decide (0 < x))) }

/-- `__getitem__(idx)` with explicit recursion fuel: the retry
`self.__getitem__((idx + 1) % len(self))` consumes one unit. -/
def getitemFuel (s : Slide) : Nat → Nat → Option Patch
  | 0, _ => none
  | fuel + 1, idx =>
      match processPatch s (s.patches idx) with
      | some p => some p
      | none => getitemFuel s fuel ((idx + 1) % s.len)

/-- `__getitem__(idx)` terminates: some finite recursion depth returns a
patch. -/
def SlideTerminates (s : Slide) (idx : Nat) : Prop :=
  ∃ fuel, (getitemFuel s fuel idx).isSome = true

/-- A returned patch always carries at least one count row: `some` is only
produced when the non-zero surviving id list is non-empty, and one row is
gathered per such id. -/
theorem processPatch_data_ne_nil (s : Slide) (g : List (List Nat)) (p : Patch)
    (h : processPatch s g = some p) : p.data ≠ [] := by
  unfold processPatch at h
  by_cases he : ((survivingIds s g).filter (fun x => decide (0 < x))).isEmpty = true
  · rw [if_pos he] at h
    cases h
  · rw [if_neg he] at h
    injection h with h2
    subst h2
    simp only [rowsFor, ne_eq, List.map_eq_nil_iff]
    intro hnil
    exact he (by simp [List.isEmpty_iff, hnil])

/-- Whatever `getitemFuel` returns went through `processPatch`, so it has
at least one count row. -/
theorem getitemFuel_data_ne_nil (s : Slide) :
    ∀ fuel idx p, getitemFuel s fuel idx = some p → p.data ≠ [] := by
  intro fuel
  induction fuel with
  | zero =>
      intro idx p h
      cases h
  | succ fuel ih =>
      intro idx p h
      cases hq : processPatch s (s.patches idx) with
      | some q =>
          simp only [getitemFuel, hq] at h
          injection h with h2
          exact h2 ▸ processPatch_data_ne_nil s (s.patches idx) q hq
      | none =>
          simp only [getitemFuel, hq] at h
          exact ih _ p h

/-- Cyclic-retry search: if some index within the next `k` steps of the
`(idx + 1) % len` walk yields a surviving patch, `k` units of fuel
suffice. -/
theorem getitemFuel_isSome_of_step (s : Slide) :
    ∀ k idx, 0 < s.len → idx < s.len →
    (∃ j, j < k ∧ (processPatch s (s.patches ((idx + j) % s.len))).isSome = true) →
    (getitemFuel s k idx).isSome = true := by
  intro k
  induction k with
  | zero =>
      intro idx _ _ h
      obtain ⟨j, hj, _⟩ := h
      omega
  | succ k ih =>
      intro idx hlen hidx h
      by_cases hp : (processPatch s (s.patches idx)).isSome = true
      · obtain ⟨p, hp2⟩ := Option.isSome_iff_exists.mp hp
        simp [getitemFuel, hp2]
      · obtain ⟨j, hj, hjs⟩ := h
        have hj0 : j ≠ 0 := by
          intro h0
          subst h0
          rw [Nat.add_zero, Nat.mod_eq_of_lt hidx] at hjs
          exact hp hjs
        obtain ⟨j', rfl⟩ := Nat.exists_eq_succ_of_ne_zero hj0
        have hstep : ((idx + 1) % s.len + j') % s.len = (idx + (j' + 1)) % s.len := by
          rw [Nat.mod_add_mod]
          congr 1
          omega
        have hrec : (getitemFuel s k ((idx + 1) % s.len)).isSome = true := by
          apply ih ((idx + 1) % s.len) hlen (Nat.mod_lt _ hlen)
          exact ⟨j', by omega, by rw [hstep]; exact hjs⟩
        have hpn : processPatch s (s.patches idx) = none := by
          cases hq : processPatch s (s.patches idx)
          · rfl
          · exact absurd (by simp [hq]) hp
        simp [getitemFuel, hpn, hrec]

/-- Claim C6 (amended): termination needs more than a non-zero count row
somewhere in the slide — it holds as soon as SOME index yields a crop in
which a non-zero id survives the interior filter.  In that case, starting
from any index, at most `len(self)` recursive retries happen and the
returned patch has at least one count row. -/
theorem getitem_terminates_of_surviving (s : Slide) (idx : Nat)
    (hidx : idx < s.len)
    (hsurv : ∃ i, i < s.len ∧ (processPatch s (s.patches i)).isSome = true) :
    SlideTerminates s idx ∧
      ∃ p, getitemFuel s s.len idx = some p ∧ p.data ≠ [] := by
  obtain ⟨i, hi, his⟩ := hsurv
  have hlen : 0 < s.len := by omega
  have hj : ∃ j, j < s.len ∧
      (processPatch s (s.patches ((idx + j) % s.len))).isSome = true := by
    refine ⟨(i + s.len - idx) % s.len, Nat.mod_lt _ hlen, ?_⟩
    have he : (idx + (i + s.len - idx) % s.len) % s.len = i := by
      rw [Nat.add_mod_mod]
      have he2 : idx + (i + s.len - idx) = i + s.len := by omega
      rw [he2, Nat.add_mod_right, Nat.mod_eq_of_lt hi]
    rw [he]
    exact his
  have hs := getitemFuel_isSome_of_step s s.len idx hlen hidx hj
  obtain ⟨p, hp⟩ := Option.isSome_iff_exists.mp hs
  exact ⟨⟨s.len, hs⟩, p, hp, getitemFuel_data_ne_nil s s.len idx p hp⟩

/-- A slide whose count matrix has a non-zero row (segment 1, count 5) but
whose crops always cut that segment at the crop boundary: every patch is
filtered to background. -/
def badSlide : Slide := Slide.mk [[5]] 2 (fun _ => [[1, 1], [1, 1]])

/-- Every `badSlide` crop loses all ids: segment 1 touches the crop border
everywhere, so the interior filter zeroes it. -/
theorem badSlide_processPatch (idx : Nat) :
    processPatch badSlide (badSlide.patches idx) = none := by
  show processPatch badSlide [[1, 1], [1, 1]] = none
  decide

/-- `__getitem__` on `badSlide` recurses forever: no fuel suffices. -/
theorem badSlide_getitemFuel_none :
    ∀ fuel idx, getitemFuel badSlide fuel idx = none := by
  intro fuel
  induction fuel with
  | zero => intro idx; rfl
  | succ fuel ih =>
      intro idx
      simp [getitemFuel, badSlide_processPatch idx, ih]

/-- Claim C6 counterexample: `badSlide` has a non-background segment with
a non-zero count row (row `[5]` for id 1, and id 1 occurs in its crops),
yet `__getitem__(0)` never terminates — the claim's hypothesis is not
sufficient. -/
theorem slide_retry_nontermination_counterexample :
    badSlide.data.any (fun row => row.any (fun c => decide (0 < c))) = true ∧
    1 ∈ (badSlide.patches 0).flatten ∧
    ¬ SlideTerminates badSlide 0 := by
  refine ⟨by decide, by decide, ?_⟩
  rintro ⟨fuel, hs⟩
  rw [badSlide_getitemFuel_none fuel 0] at hs
  cases hs

/-- A slide with one good index: index 1 crops a 3×3 window in which
segment 1 is fully interior, index 0 crops a degenerate window. -/
def goodSlide : Slide := Slide.mk [[5]] 2
  (fun idx => if idx = 1 then [[0, 0, 0], [0, 1, 0], [0, 0, 0]] else [[1, 1], [1, 1]])

/-- Claim C6 witness: `getitem_terminates_of_surviving` on `goodSlide`
starting from the failing index 0. -/
theorem getitem_terminates_witness :
    SlideTerminates goodSlide 0 ∧
      ∃ p, getitemFuel goodSlide goodSlide.len 0 = some p ∧ p.data ≠ [] :=
  getitem_terminates_of_surviving goodSlide 0 (by decide)
    ⟨1, by decide, by decide⟩

/-- The surviving-id list has no duplicates (it is `np.unique` output). -/
theorem survivingIds_nodup (s : Slide) (g : List (List Nat)) :
    (survivingIds s g).Nodup := by
  have hperm : (survivingIds s g).Perm ((filteredLabel s g).flatten.dedup) :=
    List.perm_insertionSort _ _
  exact hperm.nodup_iff.mpr (List.nodup_dedup _)

/-- Counting values below `v` in a duplicate-free list without 0 equals
the length of its filter to the open interval `(0, v)`. -/
theorem countP_lt_of_zero_not_mem (l : List Nat) (v : Nat) (h0 : 0 ∉ l) :
    l.countP (fun u => decide (u < v)) =
      (l.filter (fun u => decide (0 < u) && decide (u < v))).length := by
  induction l with
  | nil => rfl
  | cons a t ih =>
      have ha : a ≠ 0 := fun he => h0 (he ▸ List.mem_cons_self a t)
      have h0t : 0 ∉ t := fun h => h0 (List.mem_cons_of_mem _ h)
      have hpos : decide (0 < a) = true := by
        simp [Nat.pos_of_ne_zero ha]
      rw [List.countP_cons, List.filter_cons]
      by_cases hav : a < v <;> simp [hav, hpos, ih h0t]

/-- Counting values below `v > 0` in a duplicate-free list containing 0 is
one more than the count of its non-zero values below `v`. -/
theorem countP_lt_of_zero_mem (l : List Nat) (v : Nat) (hnd : l.Nodup)
    (h0 : 0 ∈ l) (hv : 0 < v) :
    l.countP (fun u => decide (u < v)) =
      (l.filter (fun u => decide (0 < u) && decide (u < v))).length + 1 := by
  induction l with
  | nil => cases h0
  | cons a t ih =>
      rcases List.mem_cons.mp h0 with ha | ha
      · have h0t : 0 ∉ t := by
          rw [← ha] at hnd
          exact (List.nodup_cons.mp hnd).1
        rw [List.countP_cons, List.filter_cons, ← ha]
        simp [hv, Nat.lt_irrefl, countP_lt_of_zero_not_mem t v h0t]
      · have ha0 : a ≠ 0 := by
          intro he
          exact (List.nodup_cons.mp hnd).1 (he ▸ ha)
        have hpos : decide (0 < a) = true := by
          simp [Nat.pos_of_ne_zero ha0]
        rw [List.countP_cons, List.filter_cons]
        have iht := ih (List.nodup_cons.mp hnd).2 ha
        by_cases hav : a < v <;> simp [hav, hpos, iht]

/-- Claim C7 (amended): remapping sends each id to its RANK in the sorted
surviving-id list.  When background 0 survives the crop, 0 maps to 0 and a
non-zero id `v` maps to one more than the number of smaller surviving
non-zero ids (the k-th smallest non-zero id maps to k).  (When 0 does not
survive, ranks shift down: see the counterexample.) -/
theorem remap_rank_with_background (s : Slide) (g : List (List Nat))
    (h0 : 0 ∈ survivingIds s g) :
    remapPixel (survivingIds s g) 0 = 0 ∧
    ∀ v ∈ survivingIds s g, 0 < v →
      remapPixel (survivingIds s g) v =
        ((survivingIds s g).filter
          (fun u => decide (0 < u) && decide (u < v))).length + 1 := by
  constructor
  · simp [remapPixel, List.countP_eq_zero]
  · intro v _ hpos
    exact countP_lt_of_zero_mem (survivingIds s g) v (survivingIds_nodup s g) h0 hpos

/-- Claim C7 witness: `remap_rank_with_background` on the `goodSlide`
crop `{0, 1}` — background keeps rank 0 and id 1 gets rank 1. -/
theorem remap_rank_witness :
    remapPixel (survivingIds goodSlide (goodSlide.patches 1)) 0 = 0 ∧
    remapPixel (survivingIds goodSlide (goodSlide.patches 1)) 1 =
      ((survivingIds goodSlide (goodSlide.patches 1)).filter
        (fun u => decide (0 < u) && decide (u < 1))).length + 1 :=
  ⟨(remap_rank_with_background goodSlide (goodSlide.patches 1) (by decide)).1,
   (remap_rank_with_background goodSlide (goodSlide.patches 1) (by decide)).2
     1 (by decide) (by decide)⟩

/-- A slide whose single segment has an all-zero count row, so its id 1 is
in `_zero_data` and survives crops it completely fills. -/
def zSlide : Slide := Slide.mk [[0, 0]] 1 (fun _ => [[1, 1], [1, 1]])

/-- Claim C7 counterexample: a returned patch whose crop contains no
background pixel.  The surviving ids are `[1]` (no 0), and the smallest
surviving non-zero id 1 is remapped to rank 0, not rank 1 as claimed: the
patch comes back with an all-zero label grid. -/
theorem remap_no_background_counterexample :
    survivingIds zSlide (zSlide.patches 0) = [1] ∧
    remapPixel (survivingIds zSlide (zSlide.patches 0)) 1 = 0 ∧
    processPatch zSlide (zSlide.patches 0) =
      some { label := [[0, 0], [0, 0]], data := [[0, 0]] } := by
  exact ⟨by decide, by decide, by decide⟩

end Hssl
